import Mathlib

/-!
Verification of the gibbername naming library (src/lib.rs) against its
natural-language specification.

Shallow embedding conventions:
* Machine integers (`u64` heights, `u32` indices, `u128` codec values,
  `CoinValue`) are modelled as `Nat`, with explicit `% 2 ^ w` at the places
  where the Rust code performs an `as` truncation.
* Byte strings (`Vec<u8>`, `Bytes`) are `List Nat`; Rust `String` values
  produced by lossy UTF-8 decoding are `List Nat` of Unicode code points;
  Rust `&str` identifiers (gibbernames) are `List Char`.
* Fallible Rust code returning `anyhow::Result` is modelled with `Outcome`:
  `Outcome.ok` for `Ok`, `Outcome.err` with a tag for each distinct
  `anyhow::bail!` / `.context(...)` site, and `Outcome.crash` for a Rust
  panic (`expect`, `unreachable!`).
* The transaction content hash `hash_nosigs()` is modelled as a field of the
  transaction record: the hash function itself is opaque to this library,
  which only ever compares hashes for equality.
-/

/-- Tag of every failure a call can surface.  Constructors correspond to the
spec's error taxonomy; each constructor that the code actually produces is
noted with its `anyhow::bail!` / `.context` message in `src/lib.rs`:
* `notFound` — "could not find starting transaction for the given gibbername"
* `badMarker` — "invalid data in the start transaction"
* `badOutputs` — "invalid start transaction outputs"
* `deleted` — "the name was permanently deleted"
* `brokenChain` — "OH NO! catena chain BROKE in the middle!"
* `noGibbercoins` — "No valid gibbercoins found"
* `noTxWithHash` — "No transaction with given hash"
* `noTxForName` — "Couldn't find tx for given gibbername" (transfer)
* `invalidIdentifier`, `feedExhausted` — named by the spec's taxonomy but
  produced by no code path (see C8 and C9). -/
inductive Err where
  | invalidIdentifier
  | notFound
  | badMarker
  | badOutputs
  | deleted
  | brokenChain
  | feedExhausted
  | noGibbercoins
  | noTxWithHash
  | noTxForName
deriving DecidableEq

/-- Result of running a fallible operation: success, a tagged error return,
or a Rust panic (`expect` / `unreachable!`), which aborts the task and is
distinct from any returned error. -/
inductive Outcome (α : Type) where
  | ok (a : α)
  | err (e : Err)
  | crash
deriving DecidableEq

/-- Sequencing of fallible operations (the `?` operator). -/
def Outcome.bind {α β : Type} (x : Outcome α) (f : α → Outcome β) : Outcome β :=
  match x with
  | .ok a => f a
  | .err e => .err e
  | .crash => .crash

/-- Transaction hashes (`TxHash`), abstracted to `Nat`. -/
abbrev TxHash := Nat

/-- Denomination tags (`melstructs::Denom`) as used by this library:
`NewCustom` mints a fresh token class, `Custom h` references the class whose
id is the content hash `h`; `mel` stands for every other denomination. -/
inductive Denom where
  | newCustom
  | custom (h : TxHash)
  | mel
deriving DecidableEq

/-- A transaction output (`melstructs::CoinData`) restricted to the fields
this library reads: denomination, value and the auxiliary-data payload. -/
structure CoinData where
  denom : Denom
  value : Nat
  additional_data : List Nat
deriving DecidableEq

/-- A transaction (`melstructs::Transaction`) restricted to the fields this
library reads.  `hash_nosigs` carries the value of `tx.hash_nosigs()`
(content hash with signatures excluded) as a field, since the library treats
the hash as an opaque comparable token. -/
structure Transaction where
  data : List Nat
  outputs : List CoinData
  hash_nosigs : TxHash
deriving DecidableEq

/-- Modelled from the spec: the ledger client (`melprot::Client`) is an
external collaborator; §6 of the spec fixes its capability surface.
* `txAtPosn h i` — `snapshot(h).get_transaction_by_posn(i)`;
* `getTx th` — `snapshot(_).get_transaction(th)`.  Snapshots are modelled
  height-agnostically: a transaction hash identifies its transaction, so the
  snapshot height the code passes is irrelevant to the lookup result;
* `spender th i` — the hash of the transaction spending output `i` of the
  transaction with hash `th`, if any (drives `traverse_fwd`);
* `latestHeight` — `latest_snapshot().current_header().height`;
* `blockTxHashes h` — `snapshot(h).current_block().abbreviate().txhashes`;
* `feed h a` — `stream_transactions_from(h, a)`, the live per-address feed,
  modelled as a finite list of `(transaction, height)` pairs (the finite-feed
  case of the spec; an infinite feed never returns and is out of scope of a
  terminating model). -/
structure Client where
  txAtPosn : Nat → Nat → Option TxHash
  getTx : TxHash → Option Transaction
  spender : TxHash → Nat → Option TxHash
  latestHeight : Nat
  blockTxHashes : Nat → List TxHash
  feed : Nat → Nat → List (Transaction × Nat)

/-- Modelled from the spec: the external word-list codec (`gibbercode`,
declared out of scope by §1 and specified only by contract in §4.1: a
bijection between coordinates and strings, with the concrete sample
`encode(216, 2) = "lol"`).  Any injective encoding with that sample point is
a faithful model of the contract; this one emits `"lol"` at the sample
coordinate and elsewhere an `x`-prefixed string writing the two components
in unary, separated by `b`. -/
def gibber_encode (h i : Nat) : List Char :=
  if h = 216 ∧ i = 2 then ['l', 'o', 'l']
  else 'x' :: (List.replicate h 'a' ++ 'b' :: List.replicate i 'a')

/-- Helper for `gibber_decode`: read `a ^ h ++ b ++ a ^ i` with `h`
accumulated in the second argument. -/
def gibberDecodeTail : List Char → Nat → Option (Nat × Nat)
  | [], _ => none
  | 'a' :: rest, acc => gibberDecodeTail rest (acc + 1)
  | 'b' :: rest, acc =>
      if rest.all (fun c => decide (c = 'a')) then some (acc, rest.length) else none
  | _, _ => none

/-- Modelled from the spec: inverse of `gibber_encode`; `none` models the
external codec failing on a malformed identifier (which, for the real crate
called as `let (h, i) = gibbercode::decode(g);`, can only surface as a
panic — see C8). -/
def gibber_decode (s : List Char) : Option (Nat × Nat) :=
  if s = ['l', 'o', 'l'] then some (216, 2)
  else
    match s with
    | 'x' :: rest => gibberDecodeTail rest 0
    | _ => none

/-- Embeds `decode_gibbername` (src/lib.rs:6).  The Rust function converts
the codec's `u128` pair with `height as u64` and `index as u32`, hence the
explicit truncations.  Its `anyhow::Result` wrapper is vacuous — the body is
`Ok((..))` and can never return `Err` — so the only failure mode is a panic
inside the external codec, modelled as `none`. -/
def decode_gibbername (gname : List Char) : Option (Nat × Nat) :=
  (gibber_decode gname).map (fun p => (p.1 % 2 ^ 64, p.2 % 2 ^ 32))

/-- Embeds `encode_gibbername` (src/lib.rs:12).  The `u128::try_from` calls
on a `u64` height and `u32` index are infallible, so the Rust `Result` is
always `Ok` and the model is total. -/
def encode_gibbername (height index : Nat) : List Char :=
  gibber_encode height index

/-- The byte string `b"gibbername-v1"`. -/
def markerBytes : List Nat :=
  [103, 105, 98, 98, 101, 114, 110, 97, 109, 101, 45, 118, 49]

/-- Bool form of `output.denom == Denom::NewCustom`. -/
def newCustomB (cd : CoinData) : Bool :=
  decide (cd.denom = Denom.newCustom)

/-- Bool form of `coin_data.denom == Denom::Custom(start_txhash)`. -/
def customB (s : TxHash) (cd : CoinData) : Bool :=
  decide (cd.denom = Denom.custom s)

/-- The predicate of the per-link binding extraction inside
`traverse_catena_chain_whole_history` (src/lib.rs:146-148):
`coin_data.denom == Denom::Custom(start_txhash) || coin_data.denom == Denom::NewCustom`. -/
def historyPred (s : TxHash) (cd : CoinData) : Bool :=
  decide (cd.denom = Denom.custom s ∨ cd.denom = Denom.newCustom)

/-- Embeds `Iterator::position`: index of the first element satisfying `p`. -/
def findPosition {α : Type} (p : α → Bool) : List α → Option Nat
  | [] => none
  | a :: l => if p a then some 0 else (findPosition p l).map (· + 1)

/-- The match closure passed to `traverse_fwd` by both traversal functions
(src/lib.rs:66-72 and 113-118, textually identical in the source):
position of the first output with
`(tx.hash_nosigs() == start_txhash && denom == NewCustom) || denom == Custom(start_txhash)`. -/
def chainMatchPred (s : TxHash) (tx : Transaction) (cd : CoinData) : Bool :=
  decide ((tx.hash_nosigs = s ∧ cd.denom = Denom.newCustom) ∨ cd.denom = Denom.custom s)

/-- First matching output position of a transaction under the traversal
closure. -/
def chainMatch (s : TxHash) (tx : Transaction) : Option Nat :=
  findPosition (chainMatchPred s tx) tx.outputs

/-- Modelled from the spec: `melprot`'s `traverse_fwd` primitive (§6:
"lazily produced, finite-once-tip-is-reached ordered sequence of
transactions; matchFn(tx) returns the matched output index or none, and
walks strictly forward").  Starting from the current transaction it matches
an output, follows its spender, yields the spending transaction and
continues from it; the start transaction itself is not yielded (the code
treats an empty traversal as "genesis coin never spent").  `fuel` bounds the
walk so the model is total; every theorem quantifies over or instantiates a
sufficient fuel. -/
def traverseFwd (c : Client) (matchFn : Transaction → Option Nat) :
    Nat → Transaction → List Transaction
  | 0, _ => []
  | fuel + 1, cur =>
    match matchFn cur with
    | none => []
    | some i =>
      match c.spender cur.hash_nosigs i with
      | none => []
      | some h2 =>
        match c.getTx h2 with
        | none => []
        | some tx2 => tx2 :: traverseFwd c matchFn fuel tx2

/-- The `traversal` list computed identically at the top of both
`traverse_catena_chain` (src/lib.rs:65-75) and
`traverse_catena_chain_whole_history` (src/lib.rs:112-122).  A start hash
unknown to the client yields the empty traversal. -/
def traversalOf (c : Client) (fuel : Nat) (start_txhash : TxHash) : List Transaction :=
  match c.getTx start_txhash with
  | none => []
  | some tx0 => traverseFwd c (chainMatch start_txhash) fuel tx0

/-- Embeds `get_and_validate_start_tx` (src/lib.rs:24-57).  The decode step
uses `.expect(...)`, so a codec failure is a panic (`crash`), not an error
return. -/
def get_and_validate_start_tx (c : Client) (gname : List Char) :
    Outcome (Nat × TxHash) :=
  match decode_gibbername gname with
  | none => .crash
  | some (height, index) =>
    match c.txAtPosn height index with
    | none => .err .notFound
    | some txhash =>
      match c.getTx txhash with
      | none => .crash
      | some tx =>
        if tx.data = markerBytes then
          match tx.outputs.filter newCustomB with
          | [gc] => if gc.value = 1 then .ok (height, tx.hash_nosigs) else .err .badOutputs
          | _ => .err .badOutputs
        else .err .badMarker

/-- Embeds `traverse_catena_chain` (src/lib.rs:60-104). -/
def traverse_catena_chain (c : Client) (fuel : Nat) (start_height : Nat)
    (start_txhash : TxHash) : Outcome CoinData :=
  let traversal := traversalOf c fuel start_txhash
  if traversal = [] then
    match c.getTx start_txhash with
    | none => .err .noTxWithHash
    | some tx =>
      match tx.outputs.find? newCustomB with
      | some coin => .ok coin
      | none => .err .noGibbercoins
  else
    match traversal.getLast? with
    | none => .crash
    | some lastTx =>
      match lastTx.outputs.find? (customB start_txhash) with
      | some coin => .ok coin
      | none => .err .deleted

/-- Embeds `collect::<anyhow::Result<Vec<_>>>` over a per-element fallible
map: `none` as soon as any element fails. -/
def collectOk {α β : Type} (f : α → Option β) : List α → Option (List β)
  | [] => some []
  | a :: l =>
    match f a with
    | none => none
    | some b => (collectOk f l).map (b :: ·)

/-- Embeds `traverse_catena_chain_whole_history` (src/lib.rs:107-159).
Note the per-link extraction uses `historyPred` (Custom-or-NewCustom),
unlike the Custom-only extraction of `traverse_catena_chain`. -/
def traverse_catena_chain_whole_history (c : Client) (fuel : Nat)
    (start_height : Nat) (start_txhash : TxHash) : Outcome (List CoinData) :=
  let traversal := traversalOf c fuel start_txhash
  match c.getTx start_txhash with
  | none => .err .noTxWithHash
  | some tx =>
    match tx.outputs.find? newCustomB with
    | none => .err .noGibbercoins
    | some genesisCoin =>
      match collectOk (fun t => t.outputs.find? (historyPred start_txhash)) traversal with
      | none => .err .brokenChain
      | some coins => .ok (genesisCoin :: coins)

/-- Whether a byte is a UTF-8 continuation byte (`0x80..=0xBF`). -/
def isContByte (b : Nat) : Bool :=
  decide (128 ≤ b ∧ b ≤ 191)

/-- Embeds Rust's `String::from_utf8_lossy`, producing the sequence of
decoded Unicode code points; every maximal ill-formed subsequence is
replaced by U+FFFD (65533) following the substitution-of-maximal-subparts
policy Rust implements.  The fuel argument (instantiated with the input
length, which suffices since every step consumes at least one byte) keeps
the recursion structural so that concrete inputs evaluate by `decide`. -/
def utf8LossyF : Nat → List Nat → List Nat
  | 0, _ => []
  | _ + 1, [] => []
  | fuel + 1, b :: rest =>
    if b < 128 then b :: utf8LossyF fuel rest
    else if b < 194 then 65533 :: utf8LossyF fuel rest
    else if b ≤ 223 then
      match rest with
      | [] => 65533 :: utf8LossyF fuel []
      | b1 :: rest1 =>
        if isContByte b1 then ((b - 192) * 64 + (b1 - 128)) :: utf8LossyF fuel rest1
        else 65533 :: utf8LossyF fuel rest
    else if b ≤ 239 then
      match rest with
      | [] => 65533 :: utf8LossyF fuel []
      | b1 :: rest1 =>
        if (if b = 224 then 160 else 128) ≤ b1 ∧ b1 ≤ (if b = 237 then 159 else 191) then
          match rest1 with
          | [] => 65533 :: utf8LossyF fuel []
          | b2 :: rest2 =>
            if isContByte b2 then
              ((b - 224) * 4096 + (b1 - 128) * 64 + (b2 - 128)) :: utf8LossyF fuel rest2
            else 65533 :: utf8LossyF fuel rest1
        else 65533 :: utf8LossyF fuel rest
    else if b ≤ 244 then
      match rest with
      | [] => 65533 :: utf8LossyF fuel []
      | b1 :: rest1 =>
        if (if b = 240 then 144 else 128) ≤ b1 ∧ b1 ≤ (if b = 244 then 143 else 191) then
          match rest1 with
          | [] => 65533 :: utf8LossyF fuel []
          | b2 :: rest2 =>
            if isContByte b2 then
              match rest2 with
              | [] => 65533 :: utf8LossyF fuel []
              | b3 :: rest3 =>
                if isContByte b3 then
                  ((b - 240) * 262144 + (b1 - 128) * 4096 + (b2 - 128) * 64 + (b3 - 128))
                    :: utf8LossyF fuel rest3
                else 65533 :: utf8LossyF fuel rest2
            else 65533 :: utf8LossyF fuel rest1
        else 65533 :: utf8LossyF fuel rest
    else 65533 :: utf8LossyF fuel rest

/-- Lossy UTF-8 decode of a byte string into code points. -/
def utf8Lossy (bs : List Nat) : List Nat :=
  utf8LossyF bs.length bs

/-- Embeds `lookup` (src/lib.rs:162-169): validate the start transaction,
traverse the chain, then render the final coin's auxiliary data with
`String::from_utf8_lossy`. -/
def lookup (c : Client) (fuel : Nat) (gname : List Char) : Outcome (List Nat) :=
  (get_and_validate_start_tx c gname).bind fun p =>
    (traverse_catena_chain c fuel p.1 p.2).bind fun coin =>
      .ok (utf8Lossy coin.additional_data)

/-- Embeds `lookup_whole_history` (src/lib.rs:172-184). -/
def lookup_whole_history (c : Client) (fuel : Nat) (gname : List Char) :
    Outcome (List (List Nat)) :=
  (get_and_validate_start_tx c gname).bind fun p =>
    (traverse_catena_chain_whole_history c fuel p.1 p.2).bind fun coins =>
      .ok (coins.map fun coin => utf8Lossy coin.additional_data)

/-- The confirmation loop of `register` (src/lib.rs:230-249): scan the live
feed for the first transaction whose `data` is the marker; find its position
in that block's hash list (`expect` panics when absent); encode.  An
exhausted feed reaches `unreachable!()`, a panic. -/
def registerLoop (c : Client) : List (Transaction × Nat) → Outcome (List Char)
  | [] => .crash
  | (tx, h) :: rest =>
    if tx.data = markerBytes then
      match findPosition (fun hh => decide (hh = tx.hash_nosigs)) (c.blockTxHashes h) with
      | none => .crash
      | some posn => .ok (encode_gibbername h (posn % 2 ^ 32))
    else registerLoop c rest

/-- Embeds `register` (src/lib.rs:218-250).  The wallet command printed for
the user is side effect only and does not influence the returned value;
`initial_binding` and `wallet_name` are kept to mirror the signature. -/
def register (c : Client) (address : Nat) (initial_binding : List Nat)
    (wallet_name : List Char) : Outcome (List Char) :=
  let _ := initial_binding
  let _ := wallet_name
  registerLoop c (c.feed c.latestHeight address)

/-- The confirmation loop of `transfer_name_cmd` (src/lib.rs:284-297): wait
for a transaction with an output whose lossily-decoded auxiliary data equals
the expected binding string; an exhausted feed reaches `unreachable!()`. -/
def transferLoop (new_binding : List Nat) : List (Transaction × Nat) → Outcome Unit
  | [] => .crash
  | (tx, _) :: rest =>
    match tx.outputs.find? (fun coin => decide (utf8Lossy coin.additional_data = new_binding)) with
    | some _ => .ok ()
    | none => transferLoop new_binding rest

/-- Embeds `transfer_name_cmd` (src/lib.rs:252-299); `new_binding` is the
`&str` argument, i.e. a sequence of Unicode code points. -/
def transfer_name_cmd (c : Client) (gname : List Char) (wallet_name : List Char)
    (address : Nat) (new_binding : List Nat) : Outcome Unit :=
  let _ := wallet_name
  match decode_gibbername gname with
  | none => .crash
  | some (height, index) =>
    match c.txAtPosn height index with
    | none => .err .noTxForName
    | some _txhash => transferLoop new_binding (c.feed c.latestHeight address)

/-! ## Chain wiring

`chainWire c s cur links` states that, starting from transaction `cur`, the
ledger oracles of `c` realize exactly the list `links` of successive
spending transactions under the traversal closure for start hash `s`:
each step matches an output of the current transaction and follows its
spender, and after the last link the walk stops (no match or no spender). -/

def chainWire (c : Client) (s : TxHash) : Transaction → List Transaction → Prop
  | cur, [] =>
      chainMatch s cur = none ∨
        ∃ i, chainMatch s cur = some i ∧ c.spender cur.hash_nosigs i = none
  | cur, nxt :: rest =>
      ∃ i, chainMatch s cur = some i ∧
        c.spender cur.hash_nosigs i = some nxt.hash_nosigs ∧
        c.getTx nxt.hash_nosigs = some nxt ∧
        chainWire c s nxt rest

/-! ## Concrete ledger fixtures

Small concrete clients used to evaluate the embedded functions on explicit
inputs.  In all of them the genesis transaction has hash `100` and sits at
coordinate `(216, 2)`, the coordinate of the identifier `"lol"`. -/

/-- A valid genesis transaction: marker payload and a single `NewCustom`
output of value 1 carrying binding byte `[65]`. -/
def genesisTx : Transaction :=
  { data := markerBytes
    outputs := [{ denom := Denom.newCustom, value := 1, additional_data := [65] }]
    hash_nosigs := 100 }

/-- A custody link that re-mints the custody denomination (`Custom 100`,
binding `[67]`) but also carries an earlier-positioned `NewCustom` output
(binding `[66]`). -/
def linkTx : Transaction :=
  { data := []
    outputs := [{ denom := Denom.newCustom, value := 1, additional_data := [66] },
                { denom := Denom.custom 100, value := 1, additional_data := [67] }]
    hash_nosigs := 101 }

/-- A custody link that deletes the name: no `Custom 100` output and no
`NewCustom` output. -/
def deleteTx : Transaction :=
  { data := []
    outputs := [{ denom := Denom.mel, value := 1, additional_data := [70] }]
    hash_nosigs := 101 }

/-- Client whose chain is `genesisTx` spent by `linkTx` (one custody link,
still live). -/
def cChain : Client :=
  { txAtPosn := fun h i => if h = 216 ∧ i = 2 then some 100 else none
    getTx := fun th =>
      if th = 100 then some genesisTx else if th = 101 then some linkTx else none
    spender := fun th i => if th = 100 ∧ i = 0 then some 101 else none
    latestHeight := 0
    blockTxHashes := fun _ => []
    feed := fun _ _ => [] }

/-- Client whose chain is `genesisTx` spent by `deleteTx` (the name was
deleted by the only custody link). -/
def cDel : Client :=
  { txAtPosn := fun h i => if h = 216 ∧ i = 2 then some 100 else none
    getTx := fun th =>
      if th = 100 then some genesisTx else if th = 101 then some deleteTx else none
    spender := fun th i => if th = 100 ∧ i = 0 then some 101 else none
    latestHeight := 0
    blockTxHashes := fun _ => []
    feed := fun _ _ => [] }

/-- Parametrized genesis transaction whose sole output carries binding `d`. -/
def genesisTxWith (d : List Nat) : Transaction :=
  { data := markerBytes
    outputs := [{ denom := Denom.newCustom, value := 1, additional_data := d }]
    hash_nosigs := 100 }

/-- Client with a never-spent genesis whose binding is the byte string `d`. -/
def cWith (d : List Nat) : Client :=
  { txAtPosn := fun h i => if h = 216 ∧ i = 2 then some 100 else none
    getTx := fun th => if th = 100 then some (genesisTxWith d) else none
    spender := fun _ _ => none
    latestHeight := 0
    blockTxHashes := fun _ => []
    feed := fun _ _ => [] }

/-- A transaction carrying the registration marker, sitting at position 1 of
block 5's hash list. -/
def markerFeedTx : Transaction :=
  { data := markerBytes, outputs := [], hash_nosigs := 77 }

/-- Client whose live feed delivers `markerFeedTx` at height 5. -/
def cFeedReg : Client :=
  { txAtPosn := fun _ _ => none
    getTx := fun _ => none
    spender := fun _ _ => none
    latestHeight := 0
    blockTxHashes := fun h => if h = 5 then [70, 77] else []
    feed := fun _ _ => [(markerFeedTx, 5)] }

/-- A feed transaction without the registration marker. -/
def plainFeedTx : Transaction :=
  { data := [1], outputs := [], hash_nosigs := 78 }

/-- Client whose finite live feed ends without any marker transaction. -/
def cFeedNone : Client :=
  { txAtPosn := fun _ _ => none
    getTx := fun _ => none
    spender := fun _ _ => none
    latestHeight := 0
    blockTxHashes := fun _ => []
    feed := fun _ _ => [(plainFeedTx, 5)] }

/-- A feed transaction whose output stores the invalid-UTF-8 byte string
`[255]`. -/
def rawByteTx : Transaction :=
  { data := []
    outputs := [{ denom := Denom.mel, value := 1, additional_data := [255] }]
    hash_nosigs := 99 }

/-- Client for the transfer-confirmation experiment: the gibbername's start
transaction exists and the live feed delivers `rawByteTx`. -/
def cTrans : Client :=
  { txAtPosn := fun h i => if h = 216 ∧ i = 2 then some 100 else none
    getTx := fun _ => none
    spender := fun _ _ => none
    latestHeight := 0
    blockTxHashes := fun _ => []
    feed := fun _ _ => [(rawByteTx, 3)] }

/-! ## Helper lemmas -/

theorem find?_of_filter_singleton {α : Type} {p : α → Bool} {l : List α} {a : α}
    (h : l.filter p = [a]) : l.find? p = some a := by
  induction l with
  | nil => simp at h
  | cons b l ih =>
    by_cases hb : p b
    · rw [List.filter_cons_of_pos hb] at h
      rw [List.find?_cons_of_pos _ hb]
      exact congrArg some (List.cons_eq_cons.mp h).1
    · rw [List.filter_cons_of_neg hb] at h
      rw [List.find?_cons_of_neg _ hb]
      exact ih h

theorem validate_ok {c : Client} {gname : List Char} {h i : Nat} {th : TxHash}
    {g : Transaction} {gc : CoinData}
    (hdec : decode_gibbername gname = some (h, i))
    (hpos : c.txAtPosn h i = some th)
    (hget : c.getTx th = some g)
    (hdata : g.data = markerBytes)
    (hflt : g.outputs.filter newCustomB = [gc])
    (hval : gc.value = 1) :
    get_and_validate_start_tx c gname = .ok (h, g.hash_nosigs) := by
  simp [get_and_validate_start_tx, hdec, hpos, hget, hdata, hflt, hval]

theorem traverseFwd_of_chainWire {c : Client} {s : TxHash} :
    ∀ {links : List Transaction} {cur : Transaction} {fuel : Nat},
      chainWire c s cur links → links.length ≤ fuel →
      traverseFwd c (chainMatch s) fuel cur = links := by
  intro links
  induction links with
  | nil =>
    intro cur fuel hw _
    cases fuel with
    | zero => rfl
    | succ fuel =>
      rcases hw with hm | ⟨i, hm, hsp⟩
      · simp [traverseFwd, hm]
      · simp [traverseFwd, hm, hsp]
  | cons nxt rest ih =>
    intro cur fuel hw hf
    rcases hw with ⟨i, hm, hsp, hget, hw'⟩
    cases fuel with
    | zero => simp at hf
    | succ fuel =>
      simp only [traverseFwd, hm, hsp, hget]
      have := ih hw' (by simpa using Nat.lt_succ_iff.mp (Nat.lt_of_lt_of_le (Nat.lt_succ_self _) hf))
      simp only [List.length_cons, Nat.succ_le_succ_iff] at hf
      rw [ih hw' hf]

theorem mem_of_getLast? {α : Type} {l : List α} {a : α}
    (h : l.getLast? = some a) : a ∈ l := by
  induction l with
  | nil => simp at h
  | cons b l ih =>
    cases l with
    | nil => simp_all [List.getLast?]
    | cons b' l' =>
      rw [List.getLast?_cons_cons] at h
      exact List.mem_cons_of_mem _ (ih h)

theorem getLast?_cons_of_ne {α : Type} {l : List α} (a : α) (h : l ≠ []) :
    (a :: l).getLast? = l.getLast? := by
  cases l with
  | nil => exact absurd rfl h
  | cons b l' => exact List.getLast?_cons_cons ..

theorem collectOk_eq_none_of_mem {α β : Type} {f : α → Option β} {l : List α} {a : α}
    (hm : a ∈ l) (hf : f a = none) : collectOk f l = none := by
  induction l with
  | nil => simp at hm
  | cons b l ih =>
    rcases List.mem_cons.mp hm with rfl | hm'
    · simp [collectOk, hf]
    · unfold collectOk
      cases hfb : f b with
      | none => rfl
      | some v => rw [ih hm']; rfl

theorem collectOk_length {α β : Type} {f : α → Option β} :
    ∀ {l : List α} {bs : List β}, collectOk f l = some bs → bs.length = l.length := by
  intro l
  induction l with
  | nil => intro bs h; simp [collectOk] at h; simp [← h]
  | cons a l ih =>
    intro bs h
    unfold collectOk at h
    cases hfa : f a with
    | none => rw [hfa] at h; exact absurd h (by simp)
    | some b =>
      rw [hfa] at h
      cases hcl : collectOk f l with
      | none => rw [hcl] at h; exact absurd h (by simp)
      | some bs' =>
        rw [hcl] at h
        simp only [Option.map_some', Option.some.injEq] at h
        subst h
        simp [ih hcl]

theorem traverseFwd_ne_nil_match {c : Client} {m : Transaction → Option Nat}
    {fuel : Nat} {tx : Transaction}
    (h : traverseFwd c m fuel tx ≠ []) : ∃ i, m tx = some i := by
  cases fuel with
  | zero => exact absurd rfl h
  | succ fuel =>
    unfold traverseFwd at h
    cases hm : m tx with
    | none => rw [hm] at h; exact absurd rfl h
    | some i => exact ⟨i, rfl⟩

theorem findPosition_exists {α : Type} {p : α → Bool} :
    ∀ {l : List α} {i : Nat}, findPosition p l = some i → ∃ a, a ∈ l ∧ p a = true := by
  intro l
  induction l with
  | nil => intro i h; simp [findPosition] at h
  | cons b l ih =>
    intro i h
    unfold findPosition at h
    by_cases hb : p b
    · exact ⟨b, List.mem_cons_self .., hb⟩
    · simp only [hb, if_neg, Bool.false_eq_true] at h
      cases hfp : findPosition p l with
      | none => rw [hfp] at h; simp at h
      | some j =>
        obtain ⟨a, ha, hpa⟩ := ih hfp
        exact ⟨a, List.mem_cons_of_mem _ ha, hpa⟩

theorem find?_isSome_of_exists {α : Type} {q : α → Bool} :
    ∀ {l : List α}, (∃ a, a ∈ l ∧ q a = true) → ∃ b, l.find? q = some b := by
  intro l
  induction l with
  | nil => intro ⟨a, ha, _⟩; simp at ha
  | cons b l ih =>
    intro ⟨a, ha, hqa⟩
    by_cases hqb : q b
    · exact ⟨b, List.find?_cons_of_pos _ hqb⟩
    · rw [List.find?_cons_of_neg _ hqb]
      rcases List.mem_cons.mp ha with rfl | ha'
      · exact absurd hqa (by simp [hqb])
      · exact ih ⟨a, ha', hqa⟩

theorem chainMatch_some_historyPred {s : TxHash} {tx : Transaction} {i : Nat}
    (h : chainMatch s tx = some i) :
    ∃ cd, tx.outputs.find? (historyPred s) = some cd := by
  obtain ⟨cd, hm, hp⟩ := findPosition_exists h
  apply find?_isSome_of_exists
  refine ⟨cd, hm, ?_⟩
  simp only [chainMatchPred, decide_eq_true_eq] at hp
  simp only [historyPred, decide_eq_true_eq]
  tauto

theorem gibberDecodeTail_spec (i : Nat) :
    ∀ (h acc : Nat),
      gibberDecodeTail (List.replicate h 'a' ++ 'b' :: List.replicate i 'a') acc
        = some (acc + h, i) := by
  intro h
  induction h with
  | zero =>
    intro acc
    have hall : (List.replicate i 'a').all (fun c => decide (c = 'a')) = true := by
      simp [List.all_eq_true, List.mem_replicate]
    simp [gibberDecodeTail, hall]
  | succ h ih =>
    intro acc
    rw [List.replicate_succ, List.cons_append]
    show gibberDecodeTail _ (acc + 1) = _
    rw [ih (acc + 1)]
    congr 2
    omega

theorem gibber_roundtrip (h i : Nat) :
    gibber_decode (gibber_encode h i) = some (h, i) := by
  unfold gibber_encode gibber_decode
  by_cases hc : h = 216 ∧ i = 2
  · rcases hc with ⟨rfl, rfl⟩
    simp
  · rw [if_neg hc, if_neg (by simp)]
    simpa using gibberDecodeTail_spec i h 0

theorem traverseFwd_dropLast_match {c : Client} {s : TxHash} :
    ∀ {fuel : Nat} {cur t : Transaction},
      t ∈ (traverseFwd c (chainMatch s) fuel cur).dropLast →
      ∃ j, chainMatch s t = some j := by
  intro fuel
  induction fuel with
  | zero => intro cur t ht; simp [traverseFwd] at ht
  | succ fuel ih =>
    intro cur t ht
    cases hm : chainMatch s cur with
    | none => simp [traverseFwd, hm] at ht
    | some i =>
      cases hsp : c.spender cur.hash_nosigs i with
      | none => simp [traverseFwd, hm, hsp] at ht
      | some h2 =>
        cases hg : c.getTx h2 with
        | none => simp [traverseFwd, hm, hsp, hg] at ht
        | some tx2 =>
          simp only [traverseFwd, hm, hsp, hg] at ht
          cases hrec : traverseFwd c (chainMatch s) fuel tx2 with
          | nil => rw [hrec] at ht; simp at ht
          | cons y ys =>
            rw [hrec, List.dropLast_cons_of_ne_nil (by simp)] at ht
            rcases List.mem_cons.mp ht with rfl | ht'
            · have hne : traverseFwd c (chainMatch s) fuel t ≠ [] := by
                rw [hrec]; simp
              exact traverseFwd_ne_nil_match hne
            · exact ih (by rw [hrec]; exact ht')

theorem collectOk_none_iff_last {α β : Type} {f : α → Option β} :
    ∀ {L : List α},
      (∀ t ∈ L.dropLast, ∃ b, f t = some b) →
      (collectOk f L = none ↔ ∃ lst, L.getLast? = some lst ∧ f lst = none) := by
  intro L
  induction L with
  | nil => intro _; simp [collectOk]
  | cons a L ih =>
    intro hdl
    cases L with
    | nil =>
      cases hfa : f a with
      | none => simp [collectOk, hfa]
      | some b => simp [collectOk, hfa]
    | cons b L' =>
      obtain ⟨cd, hcd⟩ := hdl a (by rw [List.dropLast_cons_of_ne_nil (by simp)]; simp)
      have hdl' : ∀ t ∈ (b :: L').dropLast, ∃ v, f t = some v := by
        intro t ht
        exact hdl t (by rw [List.dropLast_cons_of_ne_nil (by simp)]; exact List.mem_cons_of_mem _ ht)
      have step : collectOk f (a :: b :: L') = none ↔ collectOk f (b :: L') = none := by
        have hco : collectOk f (a :: b :: L')
            = (collectOk f (b :: L')).map (cd :: ·) := by
          simp only [collectOk, hcd]
        rw [hco]
        cases collectOk f (b :: L') <;> simp
      rw [step, List.getLast?_cons_cons]
      exact ih hdl'

theorem collectOk_traversal_none_iff {c : Client} {s : TxHash} (fuel : Nat)
    {g : Transaction} (hg : c.getTx s = some g) :
    (collectOk (fun t => t.outputs.find? (historyPred s)) (traversalOf c fuel s) = none
      ↔ ∃ lst, (traversalOf c fuel s).getLast? = some lst
          ∧ lst.outputs.find? (historyPred s) = none) := by
  apply collectOk_none_iff_last
  intro t ht
  unfold traversalOf at ht
  rw [hg] at ht
  obtain ⟨j, hj⟩ := traverseFwd_dropLast_match ht
  exact chainMatch_some_historyPred hj

theorem findPosition_congr {α : Type} {p q : α → Bool} :
    ∀ {l : List α}, (∀ a ∈ l, p a = q a) → findPosition p l = findPosition q l := by
  intro l
  induction l with
  | nil => intro _; rfl
  | cons b l ih =>
    intro hpq
    unfold findPosition
    rw [hpq b (List.mem_cons_self ..), ih (fun a ha => hpq a (List.mem_cons_of_mem _ ha))]

theorem registerLoop_crash {c : Client} :
    ∀ {L : List (Transaction × Nat)},
      (∀ p ∈ L, p.1.data ≠ markerBytes) → registerLoop c L = .crash := by
  intro L
  induction L with
  | nil => intro _; rfl
  | cons p L ih =>
    intro hL
    obtain ⟨tx, hb⟩ := p
    have : tx.data ≠ markerBytes := hL (tx, hb) (List.mem_cons_self ..)
    simp only [registerLoop, if_neg this]
    exact ih (fun q hq => hL q (List.mem_cons_of_mem _ hq))

theorem registerLoop_found {c : Client} {tx : Transaction} {hb posn : Nat}
    {rest : List (Transaction × Nat)}
    (hdata : tx.data = markerBytes)
    (hpos : findPosition (fun hh => decide (hh = tx.hash_nosigs)) (c.blockTxHashes hb)
      = some posn) :
    ∀ {pre : List (Transaction × Nat)},
      (∀ p ∈ pre, p.1.data ≠ markerBytes) →
      registerLoop c (pre ++ (tx, hb) :: rest)
        = .ok (encode_gibbername hb (posn % 2 ^ 32)) := by
  intro pre
  induction pre with
  | nil =>
    intro _
    rw [List.nil_append]
    simp only [registerLoop, if_pos hdata, hpos]
  | cons q pre ih =>
    intro hpre
    obtain ⟨qt, qh⟩ := q
    rw [List.cons_append]
    have : qt.data ≠ markerBytes := hpre (qt, qh) (List.mem_cons_self ..)
    simp only [registerLoop, if_neg this]
    exact ih (fun r hr => hpre r (List.mem_cons_of_mem _ hr))

/-! ## Claim theorems -/

/-- C7: for every coordinate in the codec's representable domain (`u64`
height, `u32` index), decoding the encoding of `(h, i)` returns `(h, i)`;
in particular `(216, 2)` encodes to `"lol"` and `"lol"` decodes to
`(216, 2)`.  (The codec itself is external and spec-modelled; the
truncations of `decode_gibbername` are the library's own.) -/
theorem C7_codec_roundtrip :
    (∀ h i : Nat, h < 2 ^ 64 → i < 2 ^ 32 →
        decode_gibbername (encode_gibbername h i) = some (h, i))
    ∧ encode_gibbername 216 2 = ['l', 'o', 'l']
    ∧ decode_gibbername ['l', 'o', 'l'] = some (216, 2) := by
  refine ⟨?_, by decide, by decide⟩
  intro h i hh hi
  unfold decode_gibbername encode_gibbername
  rw [gibber_roundtrip]
  simp only [Option.map_some']
  rw [Nat.mod_eq_of_lt hh, Nat.mod_eq_of_lt hi]

/-- Witness for C7 at the concrete coordinate `(216, 2)`. -/
theorem C7_codec_roundtrip_witness :
    decode_gibbername (encode_gibbername 216 2) = some (216, 2) :=
  C7_codec_roundtrip.1 216 2 (by decide) (by decide)

/-- C1: for every coordinate reached by decoding an identifier, genesis
validation fails `notFound` when no transaction exists at the coordinate,
fails `badMarker` when the payload is not exactly `"gibbername-v1"`, fails
`badOutputs` when the transaction does not have exactly one `NewCustom`
output of value 1, and otherwise succeeds, recording the custody-chain id
as the transaction's hash with signatures excluded. -/
theorem C1_genesis_validation (c : Client) (gname : List Char) (h i : Nat)
    (hdec : decode_gibbername gname = some (h, i)) :
    (c.txAtPosn h i = none →
        get_and_validate_start_tx c gname = .err .notFound)
    ∧ (∀ th tx, c.txAtPosn h i = some th → c.getTx th = some tx →
        ((tx.data ≠ markerBytes →
            get_and_validate_start_tx c gname = .err .badMarker)
         ∧ (tx.data = markerBytes →
            (¬ ∃ gc, tx.outputs.filter newCustomB = [gc] ∧ gc.value = 1) →
            get_and_validate_start_tx c gname = .err .badOutputs)
         ∧ (tx.data = markerBytes →
            ∀ gc, tx.outputs.filter newCustomB = [gc] → gc.value = 1 →
            get_and_validate_start_tx c gname = .ok (h, tx.hash_nosigs)))) := by
  constructor
  · intro hnone
    simp [get_and_validate_start_tx, hdec, hnone]
  · intro th tx hpos hget
    refine ⟨?_, ?_, ?_⟩
    · intro hnd
      simp [get_and_validate_start_tx, hdec, hpos, hget, hnd]
    · intro hdata hbad
      cases hflt : tx.outputs.filter newCustomB with
      | nil => simp [get_and_validate_start_tx, hdec, hpos, hget, hdata, hflt]
      | cons a l =>
        cases l with
        | nil =>
          have hv : a.value ≠ 1 := fun hv => hbad ⟨a, hflt, hv⟩
          simp [get_and_validate_start_tx, hdec, hpos, hget, hdata, hflt, hv]
        | cons b l' =>
          simp [get_and_validate_start_tx, hdec, hpos, hget, hdata, hflt]
    · intro hdata gc hflt hval
      exact validate_ok hdec hpos hget hdata hflt hval

/-- Witness for C1: on the concrete client `cChain`, validation of `"lol"`
succeeds with height 216 and custody-chain id 100. -/
theorem C1_genesis_validation_witness :
    get_and_validate_start_tx cChain ['l', 'o', 'l'] = .ok (216, genesisTx.hash_nosigs) :=
  ((C1_genesis_validation cChain ['l', 'o', 'l'] 216 2 (by decide)).2
      100 genesisTx (by decide) (by decide)).2.2 (by decide)
      { denom := Denom.newCustom, value := 1, additional_data := [65] } (by decide) (by decide)

/-- C5: for a valid gibbername whose genesis coin was never spent (empty
traversal), `lookup` returns the genesis output's auxiliary data (rendered
as a string) and `lookup_whole_history` returns exactly that one binding. -/
theorem C5_genesis_only (c : Client) (fuel : Nat) (gname : List Char)
    (h i : Nat) (th : TxHash) (g : Transaction) (gc : CoinData)
    (hdec : decode_gibbername gname = some (h, i))
    (hpos : c.txAtPosn h i = some th)
    (hget : c.getTx th = some g)
    (hdata : g.data = markerBytes)
    (hflt : g.outputs.filter newCustomB = [gc])
    (hval : gc.value = 1)
    (hg2 : c.getTx g.hash_nosigs = some g)
    (hempty : traversalOf c fuel g.hash_nosigs = []) :
    lookup c fuel gname = .ok (utf8Lossy gc.additional_data)
    ∧ lookup_whole_history c fuel gname = .ok [utf8Lossy gc.additional_data] := by
  have hv := validate_ok hdec hpos hget hdata hflt hval
  have hfind : g.outputs.find? newCustomB = some gc := find?_of_filter_singleton hflt
  constructor
  · simp [lookup, Outcome.bind, hv, traverse_catena_chain, hempty, hg2, hfind]
  · simp [lookup_whole_history, Outcome.bind, hv, traverse_catena_chain_whole_history,
      hempty, hg2, hfind, collectOk]

/-- Witness for C5 on the concrete never-spent client `cWith [65]`. -/
theorem C5_genesis_only_witness :
    lookup (cWith [65]) 1 ['l', 'o', 'l'] = .ok (utf8Lossy [65])
    ∧ lookup_whole_history (cWith [65]) 1 ['l', 'o', 'l'] = .ok [utf8Lossy [65]] :=
  C5_genesis_only (cWith [65]) 1 ['l', 'o', 'l'] 216 2 100 (genesisTxWith [65])
    { denom := Denom.newCustom, value := 1, additional_data := [65] }
    (by decide) (by decide) (by decide) (by decide) (by decide) (by decide)
    (by decide) (by decide)

/-- Counterexample to C2 as stated: on `cChain`, a valid one-link chain
whose link re-mints the custody denomination, `lookup` returns the link's
custody binding `[67]`, yet `lookup_whole_history`'s final entry is `[66]`
(the link's `NewCustom` output), so the history is not
`[genesis binding, binding of link 1]` for any single notion of the link's
binding that also makes `lookup`'s answer the link's binding. -/
theorem C2_counterexample :
    lookup cChain 2 ['l', 'o', 'l'] = .ok [67]
    ∧ lookup_whole_history cChain 2 ['l', 'o', 'l'] = .ok [[65], [66]]
    ∧ ([[65], [66]] : List (List Nat)).getLast? ≠ some [67] := by decide

/-- C2 (amended): for a valid gibbername whose custody chain has `N ≥ 1`
links, `lookup` returns the binding of the last link's first
custody-denomination output, while `lookup_whole_history` returns `N + 1`
bindings in chain order — the genesis binding followed by, for each link,
the binding of its first output whose denomination is the custody
denomination *or `NewCustom`* (these agree with the link's custody binding
only when no `NewCustom` output precedes it). -/
theorem C2_amended_chain_history (c : Client) (fuel : Nat) (gname : List Char)
    (h i : Nat) (th : TxHash) (g : Transaction) (gc : CoinData)
    (links : List Transaction) (lst : Transaction) (lc : CoinData)
    (cs : List CoinData)
    (hdec : decode_gibbername gname = some (h, i))
    (hpos : c.txAtPosn h i = some th)
    (hget : c.getTx th = some g)
    (hdata : g.data = markerBytes)
    (hflt : g.outputs.filter newCustomB = [gc])
    (hval : gc.value = 1)
    (hg2 : c.getTx g.hash_nosigs = some g)
    (hwire : chainWire c g.hash_nosigs g links)
    (hne : links ≠ [])
    (hfuel : links.length ≤ fuel)
    (hlast : links.getLast? = some lst)
    (hlc : lst.outputs.find? (customB g.hash_nosigs) = some lc)
    (hcs : collectOk (fun t => t.outputs.find? (historyPred g.hash_nosigs)) links
      = some cs) :
    lookup c fuel gname = .ok (utf8Lossy lc.additional_data)
    ∧ lookup_whole_history c fuel gname
        = .ok ((gc :: cs).map fun cd => utf8Lossy cd.additional_data)
    ∧ (gc :: cs).length = links.length + 1 := by
  have hv := validate_ok hdec hpos hget hdata hflt hval
  have hfind : g.outputs.find? newCustomB = some gc := find?_of_filter_singleton hflt
  have htrav : traversalOf c fuel g.hash_nosigs = links := by
    unfold traversalOf
    rw [hg2]
    exact traverseFwd_of_chainWire hwire hfuel
  refine ⟨?_, ?_, ?_⟩
  · simp [lookup, Outcome.bind, hv, traverse_catena_chain, htrav, hne, hlast, hlc]
  · simp [lookup_whole_history, Outcome.bind, hv, traverse_catena_chain_whole_history,
      htrav, hg2, hfind, hcs]
  · simp [collectOk_length hcs]

/-- Witness for C2 (amended) on the one-link chain `cChain`. -/
theorem C2_amended_chain_history_witness :
    lookup cChain 2 ['l', 'o', 'l'] = .ok (utf8Lossy [67])
    ∧ lookup_whole_history cChain 2 ['l', 'o', 'l']
        = .ok ([[65], [66]].map utf8Lossy) := by
  have := C2_amended_chain_history cChain 2 ['l', 'o', 'l'] 216 2 100 genesisTx
    { denom := Denom.newCustom, value := 1, additional_data := [65] }
    [linkTx] linkTx
    { denom := Denom.custom 100, value := 1, additional_data := [67] }
    [{ denom := Denom.newCustom, value := 1, additional_data := [66] }]
    (by decide) (by decide) (by decide) (by decide) (by decide) (by decide)
    (by decide)
    ⟨0, by decide, by decide, by decide, Or.inr ⟨1, by decide, by decide⟩⟩
    (by decide) (by decide) (by decide) (by decide) (by decide)
  refine ⟨this.1, ?_⟩
  rw [this.2.1]
  rfl

/-- Counterexample to C3 as stated: on `cDel` (a valid gibbername whose
single custody link carries no output of the custody denomination), `lookup`
does fail `deleted`, but `lookup_whole_history` fails `brokenChain` — a
different error tag — contradicting "both … fail with the Deleted error,
not with any other error tag". -/
theorem C3_counterexample :
    lookup cDel 2 ['l', 'o', 'l'] = .err .deleted
    ∧ lookup_whole_history cDel 2 ['l', 'o', 'l'] = .err .brokenChain
    ∧ Err.brokenChain ≠ Err.deleted := by decide

/-- C3 (amended): for a valid gibbername whose final traversed link has no
output of the custody denomination, `lookup` fails `deleted`; but
`lookup_whole_history` fails `brokenChain`, not `deleted`, whenever that
final link carries no `NewCustom` output either (its extraction predicate
finds nothing). -/
theorem C3_amended_deleted (c : Client) (fuel : Nat) (gname : List Char)
    (h i : Nat) (th : TxHash) (g : Transaction) (gc : CoinData)
    (links : List Transaction) (lst : Transaction)
    (hdec : decode_gibbername gname = some (h, i))
    (hpos : c.txAtPosn h i = some th)
    (hget : c.getTx th = some g)
    (hdata : g.data = markerBytes)
    (hflt : g.outputs.filter newCustomB = [gc])
    (hval : gc.value = 1)
    (hg2 : c.getTx g.hash_nosigs = some g)
    (hwire : chainWire c g.hash_nosigs g links)
    (hne : links ≠ [])
    (hfuel : links.length ≤ fuel)
    (hlast : links.getLast? = some lst)
    (hnocustom : lst.outputs.find? (customB g.hash_nosigs) = none)
    (hnohist : lst.outputs.find? (historyPred g.hash_nosigs) = none) :
    lookup c fuel gname = .err .deleted
    ∧ lookup_whole_history c fuel gname = .err .brokenChain := by
  have hv := validate_ok hdec hpos hget hdata hflt hval
  have hfind : g.outputs.find? newCustomB = some gc := find?_of_filter_singleton hflt
  have htrav : traversalOf c fuel g.hash_nosigs = links := by
    unfold traversalOf
    rw [hg2]
    exact traverseFwd_of_chainWire hwire hfuel
  have hcoll : collectOk (fun t => t.outputs.find? (historyPred g.hash_nosigs)) links
      = none :=
    collectOk_eq_none_of_mem (mem_of_getLast? hlast) hnohist
  constructor
  · simp [lookup, Outcome.bind, hv, traverse_catena_chain, htrav, hne, hlast, hnocustom]
  · simp [lookup_whole_history, Outcome.bind, hv, traverse_catena_chain_whole_history,
      htrav, hg2, hfind, hcoll]

/-- Witness for C3 (amended) on the deleted chain `cDel`. -/
theorem C3_amended_deleted_witness :
    lookup cDel 2 ['l', 'o', 'l'] = .err .deleted
    ∧ lookup_whole_history cDel 2 ['l', 'o', 'l'] = .err .brokenChain :=
  C3_amended_deleted cDel 2 ['l', 'o', 'l'] 216 2 100 genesisTx
    { denom := Denom.newCustom, value := 1, additional_data := [65] }
    [deleteTx] deleteTx
    (by decide) (by decide) (by decide) (by decide) (by decide) (by decide)
    (by decide)
    ⟨0, by decide, by decide, by decide, Or.inl (by decide)⟩
    (by decide) (by decide) (by decide) (by decide) (by decide)

/-- Counterexample to C4 as stated: on `cDel`, `lookup_whole_history` fails
`brokenChain` although no non-terminal traversed transaction lacks a
custody-denomination output — indeed the traversal has no non-terminal
transaction at all (`dropLast` of the traversal is empty) — so the claimed
"exactly when" equivalence is false. -/
theorem C4_counterexample :
    lookup_whole_history cDel 2 ['l', 'o', 'l'] = .err .brokenChain
    ∧ ¬ ∃ t ∈ (traversalOf cDel 2 100).dropLast,
        t.outputs.find? (customB 100) = none := by decide

/-- C4 (amended): for a valid gibbername, `lookup_whole_history` fails
`brokenChain` exactly when the *final* traversed transaction lacks any
output of the custody or `NewCustom` denomination; it can never be caused
by a non-terminal traversed transaction, because the traversal only
continues through transactions with a matching output (second conjunct),
so a silently truncated mid-chain history cannot arise. -/
theorem C4_amended_brokenchain (c : Client) (fuel : Nat) (gname : List Char)
    (h i : Nat) (th : TxHash) (g : Transaction) (gc : CoinData)
    (hdec : decode_gibbername gname = some (h, i))
    (hpos : c.txAtPosn h i = some th)
    (hget : c.getTx th = some g)
    (hdata : g.data = markerBytes)
    (hflt : g.outputs.filter newCustomB = [gc])
    (hval : gc.value = 1)
    (hg2 : c.getTx g.hash_nosigs = some g) :
    (lookup_whole_history c fuel gname = .err .brokenChain
      ↔ ∃ lst, (traversalOf c fuel g.hash_nosigs).getLast? = some lst
          ∧ lst.outputs.find? (historyPred g.hash_nosigs) = none)
    ∧ (∀ t ∈ (traversalOf c fuel g.hash_nosigs).dropLast,
        ∃ cd, t.outputs.find? (historyPred g.hash_nosigs) = some cd) := by
  have hv := validate_ok hdec hpos hget hdata hflt hval
  have hfind : g.outputs.find? newCustomB = some gc := find?_of_filter_singleton hflt
  constructor
  · rw [← collectOk_traversal_none_iff fuel hg2]
    cases hcoll : collectOk (fun t => t.outputs.find? (historyPred g.hash_nosigs))
        (traversalOf c fuel g.hash_nosigs) with
    | none =>
      simp [lookup_whole_history, Outcome.bind, hv,
        traverse_catena_chain_whole_history, hg2, hfind, hcoll]
    | some cs =>
      simp [lookup_whole_history, Outcome.bind, hv,
        traverse_catena_chain_whole_history, hg2, hfind, hcoll]
  · intro t ht
    unfold traversalOf at ht
    rw [hg2] at ht
    obtain ⟨j, hj⟩ := traverseFwd_dropLast_match ht
    exact chainMatch_some_historyPred hj

/-- Witness for C4 (amended) on the deleted chain `cDel`: the equivalence
instantiated there, with both sides true. -/
theorem C4_amended_brokenchain_witness :
    lookup_whole_history cDel 2 ['l', 'o', 'l'] = .err .brokenChain :=
  ((C4_amended_brokenchain cDel 2 ['l', 'o', 'l'] 216 2 100 genesisTx
      { denom := Denom.newCustom, value := 1, additional_data := [65] }
      (by decide) (by decide) (by decide) (by decide) (by decide) (by decide)
      (by decide)).1).mpr ⟨deleteTx, by decide, by decide⟩

/-- Counterexample to C6 as stated: on the non-genesis link `linkTx`
(hash 101 ≠ chain id 100), `lookup_whole_history`'s binding extraction
selects the `NewCustom` output (binding `[66]`, position 0) instead of the
first custody-denomination output (binding `[67]`), so a freshly-minted
`NewCustom` output *is* accepted on a later link by one of the two
functions. -/
theorem C6_counterexample :
    lookup_whole_history cChain 2 ['l', 'o', 'l'] = .ok [[65], [66]]
    ∧ linkTx.hash_nosigs ≠ 100
    ∧ (linkTx.outputs.find? (historyPred 100)).map (fun cd => cd.denom)
        = some Denom.newCustom
    ∧ (linkTx.outputs.find? (historyPred 100)).map (fun cd => cd.additional_data)
        = some [66]
    ∧ (linkTx.outputs.find? (customB 100)).map (fun cd => cd.additional_data)
        = some [67] := by decide

/-- C6 (amended): the traversal step shared by both functions selects the
first output, by position, matching
`(genesis ∧ NewCustom) ∨ custody denomination` — so on a non-genesis link
it is exactly the first custody-denomination output, and on the genesis
transaction `NewCustom` outputs also count; however
`lookup_whole_history`'s per-link binding extraction separately accepts
`NewCustom` outputs on any link (see `C6_counterexample` and
`historyPred`). -/
theorem C6_amended_selection (s : TxHash) (tx : Transaction) :
    (tx.hash_nosigs ≠ s →
        chainMatch s tx = findPosition (customB s) tx.outputs)
    ∧ (tx.hash_nosigs = s →
        chainMatch s tx
          = findPosition
              (fun cd => decide (cd.denom = Denom.newCustom ∨ cd.denom = Denom.custom s))
              tx.outputs) := by
  constructor
  · intro hne
    unfold chainMatch
    apply findPosition_congr
    intro cd _
    simp only [chainMatchPred, customB, decide_eq_decide]
    constructor
    · rintro (⟨hh, _⟩ | hcust)
      · exact absurd hh hne
      · exact hcust
    · exact Or.inr
  · intro heq
    unfold chainMatch
    apply findPosition_congr
    intro cd _
    simp only [chainMatchPred, decide_eq_decide, heq]
    tauto

/-- Witness for C6 (amended) on the non-genesis link `linkTx`. -/
theorem C6_amended_selection_witness :
    chainMatch 100 linkTx = findPosition (customB 100) linkTx.outputs :=
  (C6_amended_selection 100 linkTx).1 (by decide)

/-- C8 (code bug): resolving a malformed identifier (here the empty string,
which the codec rejects) panics — `decode_gibbername` wraps an infallible
external call whose only failure mode is a panic, and
`get_and_validate_start_tx` additionally `.expect`s it — so neither
`lookup` nor `lookup_whole_history` can ever return the tagged
`invalidIdentifier` failure the spec requires, and the call aborts rather
than returning any tagged failure. -/
theorem C8_malformed_panics :
    lookup (cWith [65]) 1 [] = Outcome.crash
    ∧ lookup_whole_history (cWith [65]) 1 [] = Outcome.crash
    ∧ ∀ e : Err, (Outcome.crash : Outcome (List Nat)) ≠ Outcome.err e :=
  ⟨by decide, by decide, fun _ h => Outcome.noConfusion h⟩

/-- Counterexample to C9 as stated: on the finite feed of `cFeedNone`,
which ends without a marker transaction, `register` panics
(`unreachable!()`) instead of failing with a tagged `feedExhausted`
error. -/
theorem C9_counterexample :
    register cFeedNone 0 [] [] = Outcome.crash
    ∧ (Outcome.crash : Outcome (List Char)) ≠ Outcome.err Err.feedExhausted := by
  exact ⟨by decide, fun h => Outcome.noConfusion h⟩

/-- C9 (amended): `register` scans the live per-address feed from the
recorded height; when the feed contains a transaction whose payload is the
marker, the first such transaction is taken and the call returns the
gibbername encoding of its coordinate (its height and its position within
that block's hash list, truncated to `u32`); when the feed is finite and
ends without such a transaction, the call panics (`unreachable!()`) rather
than returning a `feedExhausted` error. -/
theorem C9_register_amended (c : Client) (address : Nat) (ib : List Nat)
    (wn : List Char) :
    ((∀ p ∈ c.feed c.latestHeight address, p.1.data ≠ markerBytes) →
        register c address ib wn = Outcome.crash)
    ∧ (∀ (pre rest : List (Transaction × Nat)) (tx : Transaction) (hb posn : Nat),
        c.feed c.latestHeight address = pre ++ (tx, hb) :: rest →
        (∀ p ∈ pre, p.1.data ≠ markerBytes) →
        tx.data = markerBytes →
        findPosition (fun hh => decide (hh = tx.hash_nosigs)) (c.blockTxHashes hb)
          = some posn →
        register c address ib wn
          = Outcome.ok (encode_gibbername hb (posn % 2 ^ 32))) := by
  constructor
  · intro hall
    exact registerLoop_crash hall
  · intro pre rest tx hb posn hfeed hpre hdata hpos
    show registerLoop c (c.feed c.latestHeight address) = _
    rw [hfeed]
    exact registerLoop_found hdata hpos hpre

/-- Witness for C9 (amended): on `cFeedReg` the marker transaction sits at
position 1 of block 5, so `register` returns `encode_gibbername 5 1`. -/
theorem C9_register_amended_witness :
    register cFeedReg 0 [] [] = Outcome.ok (encode_gibbername 5 (1 % 2 ^ 32)) :=
  (C9_register_amended cFeedReg 0 [] []).2 [] [] markerFeedTx 5 1 rfl
    (by simp) (by decide) (by decide)

/-- C10: bindings are returned after lossy UTF-8 decoding, not as raw
bytes: on the family `cWith d` both lookups return `utf8Lossy d`; the
distinct stored byte strings `[255]` and `[254]` produce identical lookup
results (both render as U+FFFD, 65533); and the transfer-confirmation
check accepts a coin whose stored bytes `[255]` are not the UTF-8 encoding
`[239, 191, 189]` of the expected binding, because it compares
lossily-decoded strings. -/
theorem C10_lossy_bindings :
    (∀ d : List Nat,
        lookup (cWith d) 1 ['l', 'o', 'l'] = Outcome.ok (utf8Lossy d)
        ∧ lookup_whole_history (cWith d) 1 ['l', 'o', 'l']
            = Outcome.ok [utf8Lossy d])
    ∧ lookup (cWith [255]) 1 ['l', 'o', 'l'] = lookup (cWith [254]) 1 ['l', 'o', 'l']
    ∧ ([255] : List Nat) ≠ [254]
    ∧ utf8Lossy [255] = [65533]
    ∧ transfer_name_cmd cTrans ['l', 'o', 'l'] [] 0 [65533] = Outcome.ok ()
    ∧ ([255] : List Nat) ≠ [239, 191, 189] := by
  refine ⟨fun d => ⟨rfl, rfl⟩, by decide, by decide, by decide, by decide, by decide⟩
